import Mathlib

namespace Rustagit

/-- Output and repository locations are modelled as lists of path components,
mirroring componentwise operations on std::path::Path / PathBuf. -/
abbrev SPath := List String

/-- Models Path::strip_prefix as used in UrlResolver::rel_root_from
(templates.rs) and page_func (main.rs): the components of page after
removing base, or none when base is not a componentwise prefix of page
(the source calls .unwrap() on this result, i.e. panics). -/
def relativeTo (base page : SPath) : Option SPath :=
  match base, page with
  | [], p => some p
  | _ :: _, [] => none
  | b :: bs, p :: ps => if b = p then relativeTo bs ps else none

/-- Models UrlResolver::rel_root_from (templates.rs lines 70-80): strip the
resolver base from the page path, let d be the component count minus one
(saturating), and return d parent-directory escapes "../.." and so on as
components, or the single component "." when d is zero.  none models the
unwrap panic when the page does not lie under the base. -/
def rel_root_from (base page : SPath) : Option SPath :=
  (relativeTo base page).map fun rel =>
    let d := rel.length - 1
    if d = 0 then ["."] else List.replicate d ".."

/-- Models the_way_out in page_func (main.rs lines 106-108): the string
"../" repeated (relpath component count saturating-minus one) times, read
as its list of escape segments; empty at depth zero.  none models the
unwrap panic on strip_prefix. -/
def theWayOut (base page : SPath) : Option SPath :=
  (relativeTo base page).map fun rel => List.replicate (rel.length - 1) ".."

/-- Resolution of a relative link against a page's directory, as a browser
or filesystem does: a ".." component pops one directory, a "." component is
skipped, and any other component descends. -/
def resolveRel (dir link : SPath) : SPath :=
  link.foldl
    (fun acc c => if c = ".." then acc.dropLast else if c = "." then acc else acc ++ [c])
    dir

/-- Destination of the shared stylesheet: destination.join("rustagit.css"). -/
def cssPath (dest : SPath) : SPath := dest ++ ["rustagit.css"]

/-- Destination of the commit log page: destination.join("log.html"). -/
def logPath (dest : SPath) : SPath := dest ++ ["log.html"]

/-- Destination of one commit page: destination.join("commit").join(id + ".html"). -/
def commitPath (dest : SPath) (id : String) : SPath := dest ++ ["commit", id ++ ".html"]

/-- Destination of the root tree index page (main.rs): tree/index.html. -/
def treeIndexPath (dest : SPath) : SPath := dest ++ ["tree", "index.html"]

/-- Destination of a directory entry's index page (main.rs walk, Tree arm):
tree/P/index.html for the directory at tree-relative path P. -/
def treeDirIndexPath (dest : SPath) (p : SPath) : SPath :=
  dest ++ ["tree"] ++ p ++ ["index.html"]

/-- Destination of a file entry's page (main.rs walk, Blob arm):
tree/parent/name.html. -/
def treeFilePath (dest : SPath) (parent : SPath) (name : String) : SPath :=
  dest ++ ["tree"] ++ parent ++ [name ++ ".html"]

/-- Destination of the raw sibling written for a non-UTF-8 blob:
tree/parent/name, with no page suffix. -/
def rawSiblingPath (dest : SPath) (parent : SPath) (name : String) : SPath :=
  dest ++ ["tree"] ++ parent ++ [name]

/-- Destination the navigation's refs link points at: refs.html (the page
itself is intentionally never generated). -/
def refsPath (dest : SPath) : SPath := dest ++ ["refs.html"]

theorem relativeTo_append (base rest : SPath) :
    relativeTo base (base ++ rest) = some rest := by
  induction base with
  | nil => rfl
  | cons b bs ih => simp [relativeTo, ih]

theorem resolveRel_append (dir xs ys : SPath) :
    resolveRel dir (xs ++ ys) = resolveRel (resolveRel dir xs) ys := by
  simp [resolveRel, List.foldl_append]

theorem dropLast_append_ne (xs : SPath) : ∀ (ys : SPath), ys ≠ [] →
    (xs ++ ys).dropLast = xs ++ ys.dropLast := by
  induction xs with
  | nil => intro ys _; rfl
  | cons x xs ih =>
    intro ys hy
    have hxy : xs ++ ys ≠ [] := by
      intro h
      exact hy (List.append_eq_nil.mp h).2
    simp only [List.cons_append]
    rw [List.dropLast_cons_of_ne_nil hxy, ih ys hy]

theorem resolveRel_escape (base : SPath) :
    ∀ (k : Nat) (dirs : SPath), dirs.length = k →
      resolveRel (base ++ dirs) (List.replicate k "..") = base := by
  intro k
  induction k with
  | zero =>
    intro dirs h
    rw [List.length_eq_zero] at h
    subst h
    simp [resolveRel]
  | succ n ih =>
    intro dirs h
    have hne : dirs ≠ [] := by
      intro hh
      subst hh
      simp at h
    have step : resolveRel (base ++ dirs) (List.replicate (n + 1) "..")
        = resolveRel ((base ++ dirs).dropLast) (List.replicate n "..") := by
      simp [resolveRel, List.replicate_succ]
    rw [step, dropLast_append_ne base dirs hne]
    exact ih dirs.dropLast (by rw [List.length_dropLast, h]; omega)

theorem resolveRel_clean : ∀ (asset : SPath) (dir : SPath),
    (∀ c ∈ asset, c ≠ ".." ∧ c ≠ ".") → resolveRel dir asset = dir ++ asset := by
  intro asset
  induction asset with
  | nil => intro dir _; simp [resolveRel]
  | cons a as ih =>
    intro dir h
    have ha := h a (by simp)
    have step : resolveRel dir (a :: as) = resolveRel (dir ++ [a]) as := by
      simp [resolveRel, ha.1, ha.2]
    rw [step, ih (dir ++ [a]) (fun c hc => h c (by simp [hc]))]
    simp

theorem count_dotdot_replicate (d : Nat) :
    List.count ".." (List.replicate d "..") = d := by
  simp [List.count_replicate]

/-- C1: for a page written at directory depth d below the destination root,
page_func's the_way_out consists of exactly d parent-directory escape
segments and is empty at d = 0; UrlResolver::rel_root_from likewise yields
exactly d escape segments and none at depth 0; and concatenating either
prefix with a root-level asset's root-relative path (stylesheet, log page,
tree index, refs page) resolves, from the page's directory, to that asset's
true destination path. -/
theorem c1_root_escape (base dirs : SPath) (file : String) (asset : SPath)
    (hA : ∀ c ∈ asset, c ≠ ".." ∧ c ≠ ".") :
    theWayOut base (base ++ dirs ++ [file]) = some (List.replicate dirs.length "..")
    ∧ (dirs.length = 0 → theWayOut base (base ++ dirs ++ [file]) = some [])
    ∧ (∃ pfx, rel_root_from base (base ++ dirs ++ [file]) = some pfx
        ∧ List.count ".." pfx = dirs.length
        ∧ (dirs.length = 0 → ".." ∉ pfx)
        ∧ resolveRel (base ++ dirs) (pfx ++ asset) = base ++ asset)
    ∧ resolveRel (base ++ dirs) (List.replicate dirs.length ".." ++ asset) = base ++ asset
    ∧ resolveRel (base ++ dirs) (List.replicate dirs.length ".." ++ ["log.html"]) = logPath base
    ∧ resolveRel (base ++ dirs) (List.replicate dirs.length ".." ++ ["rustagit.css"]) = cssPath base
    ∧ resolveRel (base ++ dirs) (List.replicate dirs.length ".." ++ ["tree", "index.html"])
        = treeIndexPath base
    ∧ resolveRel (base ++ dirs) (List.replicate dirs.length ".." ++ ["refs.html"])
        = refsPath base := by
  have hrel : relativeTo base (base ++ dirs ++ [file]) = some (dirs ++ [file]) := by
    rw [List.append_assoc]
    exact relativeTo_append base (dirs ++ [file])
  have hlen : (dirs ++ [file]).length - 1 = dirs.length := by simp
  have hresolve : ∀ (a : SPath), (∀ c ∈ a, c ≠ ".." ∧ c ≠ ".") →
      resolveRel (base ++ dirs) (List.replicate dirs.length ".." ++ a) = base ++ a := by
    intro a ha
    rw [resolveRel_append, resolveRel_escape base dirs.length dirs rfl,
      resolveRel_clean a base ha]
  refine ⟨?_, ?_, ?_, hresolve asset hA, ?_, ?_, ?_, ?_⟩
  · simp only [theWayOut, hrel, Option.map_some', hlen]
  · intro hd
    simp only [theWayOut, hrel, Option.map_some', hlen, hd, List.replicate]
  · by_cases hd : dirs.length = 0
    · have hdirs : dirs = [] := List.length_eq_zero.mp hd
      refine ⟨["."], ?_, by simp [List.count_cons, hd], fun _ => by simp, ?_⟩
      · simp only [rel_root_from, hrel, Option.map_some', hlen, hd, if_true, reduceIte]
      · subst hdirs
        have step : resolveRel (base ++ []) ((["."] : SPath) ++ asset)
            = resolveRel base asset := by
          simp [resolveRel]
        rw [step, resolveRel_clean asset base hA]
    · refine ⟨List.replicate dirs.length "..", ?_, count_dotdot_replicate dirs.length,
        fun h => absurd h hd, hresolve asset hA⟩
      simp only [rel_root_from, hrel, Option.map_some', hlen, if_neg hd]
  · exact hresolve ["log.html"] (by decide)
  · exact hresolve ["rustagit.css"] (by decide)
  · exact hresolve ["tree", "index.html"] (by decide)
  · exact hresolve ["refs.html"] (by decide)

/-- Concrete instantiation of c1_root_escape at a page two levels deep. -/
theorem c1_root_escape_witness :
    theWayOut ["out"] (["out"] ++ ["tree", "sub"] ++ ["x.html"])
      = some (List.replicate (["tree", "sub"] : SPath).length "..")
    ∧ resolveRel (["out"] ++ ["tree", "sub"])
        (List.replicate (["tree", "sub"] : SPath).length ".." ++ ["log.html"])
      = logPath ["out"] := by
  have h := c1_root_escape ["out"] ["tree", "sub"] "x.html" ["log.html"] (by decide)
  exact ⟨h.1, h.2.2.2.2.1⟩

/-- C10: rel_root_from and page_func's prefix computation panic (modelled as
none) when the page path does not lie under the base, and every page path
the generator itself constructs lies under the destination root, so the
panic branch is unreachable during a generation run. -/
theorem c10_strip_prefix_safety (base page : SPath)
    (hout : relativeTo base page = none)
    (dest : SPath) (id : String) (p : SPath) (name : String) :
    rel_root_from base page = none
    ∧ theWayOut base page = none
    ∧ (∀ rest : SPath, relativeTo dest (dest ++ rest) = some rest)
    ∧ (rel_root_from dest (logPath dest)).isSome = true
    ∧ (rel_root_from dest (commitPath dest id)).isSome = true
    ∧ (rel_root_from dest (treeIndexPath dest)).isSome = true
    ∧ (rel_root_from dest (treeDirIndexPath dest p)).isSome = true
    ∧ (rel_root_from dest (treeFilePath dest p name)).isSome = true
    ∧ (theWayOut dest (logPath dest)).isSome = true
    ∧ (theWayOut dest (commitPath dest id)).isSome = true
    ∧ (theWayOut dest (treeDirIndexPath dest p)).isSome = true
    ∧ (theWayOut dest (treeFilePath dest p name)).isSome = true := by
  have hsome : ∀ (pg : SPath) (rest : SPath), pg = dest ++ rest →
      (rel_root_from dest pg).isSome = true ∧ (theWayOut dest pg).isSome = true := by
    intro pg rest hpg
    subst hpg
    constructor
    · simp [rel_root_from, relativeTo_append]
    · simp [theWayOut, relativeTo_append]
  refine ⟨?_, ?_, fun rest => relativeTo_append dest rest, ?_, ?_, ?_, ?_, ?_, ?_, ?_, ?_, ?_⟩
  · simp [rel_root_from, hout]
  · simp [theWayOut, hout]
  · exact (hsome _ ["log.html"] rfl).1
  · exact (hsome _ ["commit", id ++ ".html"] rfl).1
  · exact (hsome _ ["tree", "index.html"] rfl).1
  · exact (hsome _ (["tree"] ++ p ++ ["index.html"]) (by simp [treeDirIndexPath])).1
  · exact (hsome _ (["tree"] ++ p ++ [name ++ ".html"]) (by simp [treeFilePath])).1
  · exact (hsome _ ["log.html"] rfl).2
  · exact (hsome _ ["commit", id ++ ".html"] rfl).2
  · exact (hsome _ (["tree"] ++ p ++ ["index.html"]) (by simp [treeDirIndexPath])).2
  · exact (hsome _ (["tree"] ++ p ++ [name ++ ".html"]) (by simp [treeFilePath])).2

/-- Concrete instantiation of c10_strip_prefix_safety: a page outside the
base makes the computation panic, while generator-constructed pages are
safe. -/
theorem c10_strip_prefix_safety_witness :
    rel_root_from ["a"] ["b", "c"] = none
    ∧ (rel_root_from ["out"] (commitPath ["out"] "abc123")).isSome = true := by
  have h := c10_strip_prefix_safety ["a"] ["b", "c"] (by decide) ["out"] "abc123" ["sub"] "f"
  exact ⟨h.1, h.2.2.2.2.1⟩

/-- Kinds of I/O failure a sidecar file read can produce; notFound models
the absent-file case, the others model any different failure such as a
permission error. -/
inductive IOErrorKind where
  | notFound
  | permissionDenied
  | other
  deriving DecidableEq, Repr

/-- Unicode White_Space test, mirroring Rust char::is_whitespace, which
str::trim applies at both ends of the string. -/
def rustIsWhitespace (c : Char) : Bool :=
  let n := c.toNat
  (0x9 ≤ n && n ≤ 0xD) || n == 0x20 || n == 0x85 || n == 0xA0 || n == 0x1680 ||
    (0x2000 ≤ n && n ≤ 0x200A) || n == 0x2028 || n == 0x2029 || n == 0x202F ||
    n == 0x205F || n == 0x3000

/-- Models Rust str::trim: drop whitespace characters from the front, then
from the back. -/
def rustTrim (s : String) : String :=
  String.mk (((s.data.dropWhile rustIsWhitespace).reverse.dropWhile rustIsWhitespace).reverse)

/-- Models Repository::read_gitdir_or_blank (repository.rs lines 46-51):
the outcome of fs::read_to_string on the sidecar file is the argument; a
successful read is trimmed, and every error, of any kind, yields the blank
string. -/
def read_gitdir_or_blank (readResult : Except IOErrorKind String) : String :=
  match readResult with
  | .ok s => rustTrim s
  | .error _ => ""

/-- Models Repository::description (repository.rs lines 53-56), given the
outcome of reading the description sidecar file. -/
def Repository.description (readResult : Except IOErrorKind String) : String :=
  read_gitdir_or_blank readResult

/-- Models Repository::url (repository.rs lines 58-61), given the outcome
of reading the url sidecar file. -/
def Repository.url (readResult : Except IOErrorKind String) : String :=
  read_gitdir_or_blank readResult

theorem head_dropWhile_not (p : Char → Bool) :
    ∀ (l : List Char) (c : Char), (l.dropWhile p).head? = some c → p c = false := by
  intro l
  induction l with
  | nil => intro c h; simp [List.dropWhile] at h
  | cons a as ih =>
    intro c h
    by_cases hp : p a
    · rw [List.dropWhile_cons_of_pos hp] at h
      exact ih c h
    · rw [List.dropWhile_cons_of_neg hp] at h
      simp at h
      subst h
      exact Bool.eq_false_iff.mpr hp

theorem mem_takeWhile_sat (p : Char → Bool) :
    ∀ (l : List Char) (c : Char), c ∈ l.takeWhile p → p c = true := by
  intro l
  induction l with
  | nil => intro c h; simp [List.takeWhile] at h
  | cons a as ih =>
    intro c h
    by_cases hp : p a
    · rw [List.takeWhile_cons_of_pos hp] at h
      rcases List.mem_cons.mp h with h1 | h2
      · subst h1; exact hp
      · exact ih c h2
    · rw [List.takeWhile_cons_of_neg hp] at h
      simp at h

/-- The trimmed list is what remains of the original after stripping a
whitespace run from each end. -/
theorem rustTrim_decomposition (s : String) :
    ∃ pre post : List Char,
      s.data = pre ++ (rustTrim s).data ++ post
      ∧ (∀ c ∈ pre, rustIsWhitespace c = true)
      ∧ (∀ c ∈ post, rustIsWhitespace c = true) := by
  set m := s.data.dropWhile rustIsWhitespace with hm
  refine ⟨s.data.takeWhile rustIsWhitespace,
    (m.reverse.takeWhile rustIsWhitespace).reverse, ?_, ?_, ?_⟩
  · have h1 : s.data.takeWhile rustIsWhitespace ++ m = s.data := by
      rw [hm]; exact List.takeWhile_append_dropWhile rustIsWhitespace s.data
    have h2 : m.reverse.takeWhile rustIsWhitespace ++ m.reverse.dropWhile rustIsWhitespace
        = m.reverse := List.takeWhile_append_dropWhile rustIsWhitespace m.reverse
    have h3 : m = (m.reverse.dropWhile rustIsWhitespace).reverse
        ++ (m.reverse.takeWhile rustIsWhitespace).reverse := by
      conv_lhs => rw [← List.reverse_reverse m, ← h2]
      rw [List.reverse_append]
    calc s.data = s.data.takeWhile rustIsWhitespace ++ m := h1.symm
      _ = s.data.takeWhile rustIsWhitespace
          ++ ((m.reverse.dropWhile rustIsWhitespace).reverse
              ++ (m.reverse.takeWhile rustIsWhitespace).reverse) := by rw [← h3]
      _ = s.data.takeWhile rustIsWhitespace ++ (rustTrim s).data
          ++ (m.reverse.takeWhile rustIsWhitespace).reverse := by
            simp [rustTrim, hm, List.append_assoc]
  · intro c hc
    exact mem_takeWhile_sat rustIsWhitespace s.data c hc
  · intro c hc
    exact mem_takeWhile_sat rustIsWhitespace m.reverse c (List.mem_reverse.mp hc)

/-- The last character of the trimmed string is never whitespace. -/
theorem rustTrim_getLast_not_ws (s : String) (c : Char)
    (h : (rustTrim s).data.getLast? = some c) : rustIsWhitespace c = false := by
  have : (rustTrim s).data.getLast?
      = ((s.data.dropWhile rustIsWhitespace).reverse.dropWhile rustIsWhitespace).head? := by
    simp [rustTrim, List.getLast?_reverse]
  rw [this] at h
  exact head_dropWhile_not rustIsWhitespace _ c h

/-- The first character of the trimmed string is never whitespace. -/
theorem rustTrim_head_not_ws (s : String) (c : Char)
    (h : (rustTrim s).data.head? = some c) : rustIsWhitespace c = false := by
  set m := s.data.dropWhile rustIsWhitespace with hm
  have hsfx : m.reverse.dropWhile rustIsWhitespace <:+ m.reverse :=
    List.dropWhile_suffix rustIsWhitespace
  have hpfx : (m.reverse.dropWhile rustIsWhitespace).reverse <+: m := by
    have h4 := List.reverse_prefix.mpr hsfx
    simpa using h4
  obtain ⟨t, ht⟩ := hpfx
  have hdata : (rustTrim s).data = (m.reverse.dropWhile rustIsWhitespace).reverse := by
    simp [rustTrim, hm]
  rw [hdata] at h
  have hm_head : m.head? = some c := by
    rw [← ht]
    rcases hne : (m.reverse.dropWhile rustIsWhitespace).reverse with _ | ⟨a, as⟩
    · rw [hne] at h; simp at h
    · rw [hne] at h
      simp at h
      subst h
      simp
  exact head_dropWhile_not rustIsWhitespace s.data c hm_head

/-- C4's counterexample: a permission-denied failure, which is not the
absent-file condition, still yields the empty string instead of propagating
an error to the caller, so the empty string is not returned exactly on
absence and non-absence I/O failures are not propagated. -/
theorem c4_counterexample :
    read_gitdir_or_blank (Except.error IOErrorKind.permissionDenied) = ""
    ∧ Repository.description (Except.error IOErrorKind.permissionDenied) = ""
    ∧ Repository.url (Except.error IOErrorKind.permissionDenied) = ""
    ∧ IOErrorKind.permissionDenied ≠ IOErrorKind.notFound := by
  exact ⟨rfl, rfl, rfl, by decide⟩

/-- C4 amended: description() and url() return the empty string on every
failed sidecar read, whatever the error kind, and the trimmed file content
on a successful read; no I/O error is ever propagated. -/
theorem c4_blank_on_any_error (e : IOErrorKind) (s : String) :
    read_gitdir_or_blank (Except.error e) = ""
    ∧ Repository.description (Except.error e) = ""
    ∧ Repository.url (Except.error e) = ""
    ∧ read_gitdir_or_blank (Except.ok s) = rustTrim s := by
  exact ⟨rfl, rfl, rfl, rfl⟩

/-- C9: for every sidecar file content s, description() and url() return s
with leading and trailing whitespace removed: the result is the trim of s,
no first or last character of the result is whitespace (in particular a
trailing newline never survives), and s splits as a whitespace run, the
result, and a whitespace run. -/
theorem c9_sidecar_trimmed (s : String) :
    Repository.description (Except.ok s) = rustTrim s
    ∧ Repository.url (Except.ok s) = rustTrim s
    ∧ (((rustTrim s).data.getLast?.map rustIsWhitespace).getD false) = false
    ∧ (((rustTrim s).data.head?.map rustIsWhitespace).getD false) = false
    ∧ ((rustTrim s).data.getLast? == some (Char.ofNat 10)) = false
    ∧ ∃ pre post : List Char,
        s.data = pre ++ (rustTrim s).data ++ post
        ∧ (∀ c ∈ pre, rustIsWhitespace c = true)
        ∧ (∀ c ∈ post, rustIsWhitespace c = true) := by
  refine ⟨rfl, rfl, ?_, ?_, ?_, rustTrim_decomposition s⟩
  · rcases hl : (rustTrim s).data.getLast? with _ | c
    · rfl
    · simp [rustTrim_getLast_not_ws s c hl]
  · rcases hh : (rustTrim s).data.head? with _ | c
    · rfl
    · simp [rustTrim_head_not_ws s c hh]
  · rcases hl : (rustTrim s).data.getLast? with _ | c
    · rfl
    · have hc := rustTrim_getLast_not_ws s c hl
      have : c ≠ Char.ofNat 10 := by
        intro hceq
        rw [hceq] at hc
        exact absurd hc (by decide)
      simp [this]

/-- Concrete instantiation of c9_sidecar_trimmed: a sidecar file holding a
description followed by a newline comes back trimmed. -/
theorem c9_sidecar_trimmed_witness :
    Repository.description (Except.ok " a repo\n") = "a repo" := by
  have h := (c9_sidecar_trimmed " a repo\n").1
  rw [h]
  rfl

/-- Literal DEFAULT_CSS from Templator (templates.rs lines 103-110). -/
def DEFAULT_CSS : String :=
  "\n        .numeric \x7b\n            text-align: right;\n        \x7d\n        td.numeric \x7b\n            font-family: monospace;\n        \x7d\n    "

/-- Literal stylesheet tail appended in main (main.rs lines 217-224). -/
def CSS_SUFFIX : String :=
  "\n        .numeric \x7b\n            text-align: right;\n        \x7d\n        td.numeric \x7b\n            font-family: monospace;\n        \x7d\n    "

/-- Models Templator::write_default_css_if_not_exists (templates.rs lines
112-122) as a transform of the stylesheet file's state: opening with
create_new writes DEFAULT_CSS when no file exists, and the AlreadyExists
error leaves an existing file untouched. -/
def write_default_css_if_not_exists (existing : Option String) : Option String :=
  match existing with
  | none => some DEFAULT_CSS
  | some c => some c

/-- Models the stylesheet step of main (main.rs lines 215-225) as a
transform of the stylesheet file's state: File::create truncates whatever
is there and the theme stylesheet plus CSS_SUFFIX is written
unconditionally. -/
def main_css_step (themeCss : String) (_existing : Option String) : Option String :=
  some (themeCss ++ CSS_SUFFIX)

/-- C3's counterexample: the main binary's stylesheet step, run against a
destination that already holds a customized stylesheet, replaces its bytes
instead of leaving them unchanged. -/
theorem c3_counterexample :
    main_css_step "" (some "custom") ≠ some "custom"
    ∧ main_css_step "" (some "custom") = some CSS_SUFFIX := by
  constructor
  · intro h
    have h2 : CSS_SUFFIX = "custom" := Option.some.inj h
    exact absurd h2 (by decide)
  · rfl

/-- C3 amended: Templator::write_default_css_if_not_exists creates the
stylesheet only when no file is present and preserves an existing file's
bytes exactly, but the stylesheet step of the main binary unconditionally
rewrites the stylesheet file. -/
theorem c3_css_preserved (c : String) (theme : String) (ex : Option String) :
    write_default_css_if_not_exists none = some DEFAULT_CSS
    ∧ write_default_css_if_not_exists (some c) = some c
    ∧ main_css_step theme ex = some (theme ++ CSS_SUFFIX) := by
  exact ⟨rfl, rfl, rfl⟩

/-- A commit object in the object store: the id of its tree and the ids of
its parents, first parent first. -/
structure StoreCommit where
  treeId : String
  parentIds : List String
  deriving DecidableEq, Repr

/-- A tree flattened to its files: each entry is a file path (components)
with the file's lines.  Tree diffing operates on this flattened view. -/
abbrev FileTree := List (List String × List String)

/-- The object store: commit objects and tree objects addressed by id.  An
id absent from the store models an unreadable or corrupt object. -/
structure Store where
  commits : List (String × StoreCommit)
  trees : List (String × FileTree)
  deriving Repr

/-- Models git2 find_commit: none is the unreadable-object failure. -/
def findCommit (st : Store) (oid : String) : Option StoreCommit :=
  st.commits.lookup oid

/-- Models reading a commit's tree object: none is the unreadable-object
failure. -/
def findTree (st : Store) (tid : String) : Option FileTree :=
  st.trees.lookup tid

/-- One per-file delta of a ChangeSet: the file's path and its insertion
and deletion line counts. -/
structure FileDelta where
  path : List String
  insertions : Nat
  deletions : Nat
  deriving DecidableEq, Repr

/-- Modelled from the spec: libgit2's diff_tree_to_tree is an external
collaborator, described by the spec as the per-file diff of two trees with
insertion and deletion counts per delta.  A file only in the new tree is a
pure insertion of all its lines, a file only in the old tree a pure
deletion, an unchanged file yields no delta, and a changed file's counts
are the lines of each side not shared with the other. -/
def diffTreeToTree (old new : FileTree) : List FileDelta :=
  (new.filterMap fun f =>
    match old.lookup f.1 with
    | none => some ⟨f.1, f.2.length, 0⟩
    | some oldLines =>
      if oldLines = f.2 then none
      else
        some ⟨f.1, f.2.length - (oldLines.bagInter f.2).length,
          oldLines.length - (oldLines.bagInter f.2).length⟩)
  ++ (old.filterMap fun f =>
    match new.lookup f.1 with
    | none => some ⟨f.1, 0, f.2.length⟩
    | some _ => none)

/-- Failure surfaced by the history walk on an unreadable object. -/
inductive GitError where
  | objectRead
  deriving DecidableEq, Repr

/-- One CommitInfo produced by the walk: the commit and its ChangeSet. -/
structure LogEntry where
  commit : StoreCommit
  diff : List FileDelta
  deriving DecidableEq, Repr

/-- Models one step of Repository::commit_log (repository.rs lines 66-78)
and of commit_log in main.rs (lines 82-97): find_commit and the commit's
own tree propagate unreadable-object failures, but the first parent's tree
is fetched with parents().next().and_then(tree().ok()), so any failure
there silently becomes None and the diff is taken against the empty tree,
exactly as for a commit with no parents. -/
def logStep (st : Store) (oid : String) : Except GitError LogEntry :=
  match findCommit st oid with
  | none => .error .objectRead
  | some commit =>
    match findTree st commit.treeId with
    | none => .error .objectRead
    | some tree =>
      let parentTree : Option FileTree :=
        match commit.parentIds with
        | [] => none
        | p :: _ => (findCommit st p).bind fun pc => findTree st pc.treeId
      .ok ⟨commit, diffTreeToTree (parentTree.getD []) tree⟩

/-- Store for the C6 counterexample: commit c's first parent p is readable
but p's tree object tp is missing from the store. -/
def c6Store : Store :=
  { commits := [("c", ⟨"t", ["p"]⟩), ("p", ⟨"tp", []⟩)],
    trees := [("t", [(["a.txt"], ["hello"])])] }

/-- C6's counterexample: with the first parent's tree unreadable, the walk
does not fail with ObjectReadError; it silently diffs against the empty
tree and reports the file as a pure insertion. -/
theorem c6_counterexample :
    findCommit c6Store "p" = some ⟨"tp", []⟩
    ∧ findTree c6Store "tp" = none
    ∧ logStep c6Store "c" = .ok ⟨⟨"t", ["p"]⟩, [⟨["a.txt"], 1, 0⟩]⟩ := by
  exact ⟨rfl, rfl, rfl⟩

/-- C6 amended: the walk fails with ObjectReadError when the commit itself
or its own tree is unreadable; the diff is taken against the first parent's
tree when that tree is readable, and against the empty tree both when the
commit has no parents and when the first parent or its tree is unreadable,
that failure being silently swallowed. -/
theorem c6_parent_tree_swallowed (st : Store) (oid : String) (c : StoreCommit)
    (t : FileTree) :
    (findCommit st oid = none → logStep st oid = .error .objectRead)
    ∧ (findCommit st oid = some c → findTree st c.treeId = none →
        logStep st oid = .error .objectRead)
    ∧ (findCommit st oid = some c → findTree st c.treeId = some t →
        (c.parentIds = [] → logStep st oid = .ok ⟨c, diffTreeToTree [] t⟩)
        ∧ (∀ p ps, c.parentIds = p :: ps →
            (((findCommit st p).bind fun pc => findTree st pc.treeId) = none →
              logStep st oid = .ok ⟨c, diffTreeToTree [] t⟩)
            ∧ (∀ pt, ((findCommit st p).bind fun pc => findTree st pc.treeId) = some pt →
              logStep st oid = .ok ⟨c, diffTreeToTree pt t⟩))) := by
  refine ⟨?_, ?_, ?_⟩
  · intro h
    simp [logStep, h]
  · intro hc ht
    simp [logStep, hc, ht]
  · intro hc ht
    constructor
    · intro hp
      simp [logStep, hc, ht, hp]
    · intro p ps hp
      constructor
      · intro hpt
        simp [logStep, hc, ht, hp, hpt]
      · intro pt hpt
        simp [logStep, hc, ht, hp, hpt]

/-- Store for the C6 witness and the C8 witness: a two-commit history whose
head c2 has a fully readable first parent c1. -/
def c6StoreB : Store :=
  { commits := [("c2", ⟨"t2", ["c1"]⟩), ("c1", ⟨"t1", []⟩)],
    trees := [("t2", [(["a.txt"], ["hello", "world"])]),
              ("t1", [(["a.txt"], ["hello"])])] }

/-- Concrete instantiation of c6_parent_tree_swallowed on a store whose
parent tree is readable: the diff is taken against that parent tree. -/
theorem c6_parent_tree_swallowed_witness :
    logStep c6StoreB "c2"
      = .ok ⟨⟨"t2", ["c1"]⟩, diffTreeToTree [(["a.txt"], ["hello"])]
          [(["a.txt"], ["hello", "world"])]⟩ := by
  have h := c6_parent_tree_swallowed c6StoreB "c2" ⟨"t2", ["c1"]⟩
    [(["a.txt"], ["hello", "world"])]
  exact (((h.2.2 rfl rfl).2 "c1" [] rfl).2 [(["a.txt"], ["hello"])]) rfl

theorem diffTreeToTree_empty_old (t : FileTree) :
    diffTreeToTree [] t = t.map fun f => ⟨f.1, f.2.length, 0⟩ := by
  simp only [diffTreeToTree, List.lookup_nil, List.filterMap_nil, List.append_nil]
  induction t with
  | nil => rfl
  | cons f fs ih => simp [List.filterMap_cons, ih]

/-- C8: a commit with no parents is diffed against the empty tree, so its
ChangeSet counts every file of its tree as a pure insertion, the
insertions being the file's line count and the deletions zero. -/
theorem c8_root_commit (st : Store) (oid : String) (c : StoreCommit) (t : FileTree)
    (hc : findCommit st oid = some c) (ht : findTree st c.treeId = some t)
    (hp : c.parentIds = []) :
    logStep st oid = .ok ⟨c, diffTreeToTree [] t⟩
    ∧ diffTreeToTree [] t = t.map (fun f => ⟨f.1, f.2.length, 0⟩)
    ∧ (∀ d ∈ diffTreeToTree [] t, d.deletions = 0)
    ∧ (∀ f ∈ t, (⟨f.1, f.2.length, 0⟩ : FileDelta) ∈ diffTreeToTree [] t) := by
  refine ⟨by simp [logStep, hc, ht, hp], diffTreeToTree_empty_old t, ?_, ?_⟩
  · intro d hd
    rw [diffTreeToTree_empty_old t] at hd
    obtain ⟨f, _, hfd⟩ := List.mem_map.mp hd
    rw [← hfd]
  · intro f hf
    rw [diffTreeToTree_empty_old t]
    exact List.mem_map.mpr ⟨f, hf, rfl⟩

/-- Concrete instantiation of c8_root_commit: the parentless commit c1 of
c6StoreB has a ChangeSet inserting both lines of its only file. -/
theorem c8_root_commit_witness :
    logStep c6StoreB "c1" = .ok ⟨⟨"t1", []⟩, diffTreeToTree [] [(["a.txt"], ["hello"])]⟩
    ∧ diffTreeToTree [] [(["a.txt"], ["hello"])]
      = [(⟨["a.txt"], 1, 0⟩ : FileDelta)] := by
  have h := c8_root_commit c6StoreB "c1" ⟨"t1", []⟩ [(["a.txt"], ["hello"])] rfl rfl rfl
  exact ⟨h.1, by rw [h.2.1]; rfl⟩

/-- An author or committer signature: name and email. -/
structure Signature where
  name : String
  email : String
  deriving DecidableEq, Repr

/-- The commit metadata consumed by the commit page renderer. -/
structure CommitData where
  id : String
  parentIds : List String
  author : Signature
  committer : Signature
  message : String
  deriving DecidableEq, Repr

/-- One item of the commit page's definition list, in rendered order.  The
author and committer items each carry the rendered name and the
mailto-linked email.  Per-delta patch bodies and the diffstat text come
verbatim from the external git library and are carried as the ChangeSet. -/
inductive CommitPageItem where
  | commitId (id : String)
  | parentLink (id : String)
  | authorLine (name email : String)
  | committerLine (name email : String)
  | messageBlock (msg : String)
  | diffstatBlock (diff : List FileDelta)
  deriving DecidableEq, Repr

/-- Models the dl rendered by Templator::write_commit (templates.rs lines
226-261) and the identical block in main.rs (lines 279-314): commit id,
parent links, then the author dd holding author().name() and a mailto link
on author().email(), then the committer dd holding author().name() again
and a mailto link on committer().email(), then the full message, then the
diffstat. -/
def renderCommitPage (c : CommitData) (diff : List FileDelta) : List CommitPageItem :=
  [CommitPageItem.commitId c.id]
  ++ c.parentIds.map CommitPageItem.parentLink
  ++ [CommitPageItem.authorLine c.author.name c.author.email,
      CommitPageItem.committerLine c.author.name c.committer.email,
      CommitPageItem.messageBlock c.message,
      CommitPageItem.diffstatBlock diff]

/-- A commit authored by Alice and committed by Bob, the input on which the
committer line renders the wrong name. -/
def c5Commit : CommitData :=
  { id := "deadbeef", parentIds := ["cafe"],
    author := ⟨"Alice", "alice@example.org"⟩,
    committer := ⟨"Bob", "bob@example.org"⟩,
    message := "fix things" }

/-- C5: evaluation of the commit page at a commit whose author and
committer differ.  The committer line carries the author's name "Alice"
next to the committer's mailto-linked email, because the source reads
ci.commit.author().name() inside the committer dd, so the page does not
show the committer's name "Bob" as the claim requires. -/
theorem c5_committer_name_bug :
    renderCommitPage c5Commit []
      = [CommitPageItem.commitId "deadbeef",
         CommitPageItem.parentLink "cafe",
         CommitPageItem.authorLine "Alice" "alice@example.org",
         CommitPageItem.committerLine "Alice" "bob@example.org",
         CommitPageItem.messageBlock "fix things",
         CommitPageItem.diffstatBlock []]
    ∧ c5Commit.committer.name = "Bob"
    ∧ CommitPageItem.committerLine "Alice" "bob@example.org"
      ≠ CommitPageItem.committerLine "Bob" "bob@example.org" := by
  refine ⟨rfl, rfl, ?_⟩
  intro h
  have h2 : "Alice" = "Bob" := (CommitPageItem.committerLine.injEq _ _ _ _).mp h |>.1
  exact absurd h2 (by decide)

/-- UTF-8 continuation byte test: 0x80 through 0xBF. -/
def utf8Cont (b : Nat) : Bool := 0x80 ≤ b && b ≤ 0xBF

/-- UTF-8 validity of a byte sequence, the test std::str::from_utf8
performs: ASCII bytes stand alone, and multi-byte sequences follow the
shortest-form ranges with surrogates and values above U+10FFFF rejected. -/
def isValidUtf8 : List Nat → Bool
  | [] => true
  | b :: rest =>
    if b ≤ 0x7F then isValidUtf8 rest
    else if 0xC2 ≤ b && b ≤ 0xDF then
      match rest with
      | b1 :: rest2 => utf8Cont b1 && isValidUtf8 rest2
      | [] => false
    else if b == 0xE0 then
      match rest with
      | b1 :: b2 :: rest2 =>
        (0xA0 ≤ b1 && b1 ≤ 0xBF) && utf8Cont b2 && isValidUtf8 rest2
      | _ => false
    else if (0xE1 ≤ b && b ≤ 0xEC) || b == 0xEE || b == 0xEF then
      match rest with
      | b1 :: b2 :: rest2 => utf8Cont b1 && utf8Cont b2 && isValidUtf8 rest2
      | _ => false
    else if b == 0xED then
      match rest with
      | b1 :: b2 :: rest2 =>
        (0x80 ≤ b1 && b1 ≤ 0x9F) && utf8Cont b2 && isValidUtf8 rest2
      | _ => false
    else if b == 0xF0 then
      match rest with
      | b1 :: b2 :: b3 :: rest2 =>
        (0x90 ≤ b1 && b1 ≤ 0xBF) && utf8Cont b2 && utf8Cont b3 && isValidUtf8 rest2
      | _ => false
    else if 0xF1 ≤ b && b ≤ 0xF3 then
      match rest with
      | b1 :: b2 :: b3 :: rest2 =>
        utf8Cont b1 && utf8Cont b2 && utf8Cont b3 && isValidUtf8 rest2
      | _ => false
    else if b == 0xF4 then
      match rest with
      | b1 :: b2 :: b3 :: rest2 =>
        (0x80 ≤ b1 && b1 ≤ 0x8F) && utf8Cont b2 && utf8Cont b3 && isValidUtf8 rest2
      | _ => false
    else false

/-- Content of a tree-leaf page: either highlighter markup for decodable
text or the binary notice with its see-raw link target. -/
inductive LeafSnippet where
  | highlighted (markup : String)
  | binaryNotice (rawLink : String)
  deriving DecidableEq, Repr

/-- One filesystem write performed while rendering a leaf: raw blob bytes
or a rendered page. -/
inductive LeafWrite where
  | raw (bytes : List Nat)
  | page (snippet : LeafSnippet)
  deriving DecidableEq, Repr

/-- Models the Blob arm of the main.rs tree walk (lines 352-409) and
Templator::write_tree_leaf (templates.rs lines 355-376): when the blob's
bytes decode as UTF-8 the page embeds the highlighter collaborator's
markup; otherwise the bytes are first written unmodified to the sibling
path without the page suffix and the page holds the binary notice with a
see-raw link to that sibling. -/
def write_tree_leaf (highlight : List Nat → String) (dest parent : SPath)
    (name : String) (content : List Nat) : List (SPath × LeafWrite) :=
  if isValidUtf8 content then
    [(treeFilePath dest parent name, .page (.highlighted (highlight content)))]
  else
    [(rawSiblingPath dest parent name, .raw content),
     (treeFilePath dest parent name, .page (.binaryNotice name))]

/-- C7: a non-UTF-8 blob is written byte-for-byte to the suffix-free
sibling path in the same directory and its page is the binary notice with
a see-raw link to that sibling; a decodable blob produces only its page,
whose content is highlighter markup and never the binary notice. -/
theorem c7_blob_rendering (highlight : List Nat → String) (dest parent : SPath)
    (name : String) (content : List Nat) :
    (isValidUtf8 content = false →
      write_tree_leaf highlight dest parent name content
        = [(rawSiblingPath dest parent name, .raw content),
           (treeFilePath dest parent name, .page (.binaryNotice name))]
      ∧ rawSiblingPath dest parent name = dest ++ ["tree"] ++ parent ++ [name])
    ∧ (isValidUtf8 content = true →
      write_tree_leaf highlight dest parent name content
        = [(treeFilePath dest parent name,
            .page (.highlighted (highlight content)))]
      ∧ (∀ link, LeafWrite.page (.highlighted (highlight content))
          ≠ LeafWrite.page (.binaryNotice link))
      ∧ (∀ pth w, (pth, w) ∈ write_tree_leaf highlight dest parent name content →
          ∀ bs, w ≠ LeafWrite.raw bs)) := by
  constructor
  · intro hinv
    exact ⟨by simp [write_tree_leaf, hinv], rfl⟩
  · intro hval
    have heq : write_tree_leaf highlight dest parent name content
        = [(treeFilePath dest parent name,
            .page (.highlighted (highlight content)))] := by
      simp [write_tree_leaf, hval]
    refine ⟨heq, fun link h => ?_, fun pth w hw bs => ?_⟩
    · exact LeafSnippet.noConfusion (LeafWrite.page.inj h)
    · rw [heq] at hw
      rcases List.mem_singleton.mp hw with h2
      have hw2 : w = .page (.highlighted (highlight content)) := (Prod.mk.injEq _ _ _ _).mp h2 |>.2
      rw [hw2]
      intro h3
      exact LeafWrite.noConfusion h3

/-- Concrete instantiation of c7_blob_rendering on the invalid byte 0xFF
and on the valid ASCII bytes of "hi". -/
theorem c7_blob_rendering_witness :
    write_tree_leaf (fun _ => "markup") ["out"] [] "blob.bin" [0xFF]
      = [(["out", "tree", "blob.bin"], .raw [0xFF]),
         (["out", "tree", "blob.bin.html"], .page (.binaryNotice "blob.bin"))]
    ∧ write_tree_leaf (fun _ => "markup") ["out"] [] "a.txt" [104, 105]
      = [(["out", "tree", "a.txt.html"], .page (.highlighted "markup"))] := by
  constructor
  · exact ((c7_blob_rendering (fun _ => "markup") ["out"] [] "blob.bin" [0xFF]).1
      (by decide)).1
  · exact ((c7_blob_rendering (fun _ => "markup") ["out"] [] "a.txt" [104, 105]).2
      (by decide)).1

/-- Kind of one entry met by the pre-order tree walk: a subdirectory or a
blob with its bytes. -/
inductive EntryKind where
  | tree
  | blob (content : List Nat)
  deriving DecidableEq, Repr

/-- One (parent, entry) pair handed to the walk callback of main.rs, with
the parent directory path already split into components. -/
structure WalkEntry where
  parent : SPath
  name : String
  kind : EntryKind
  deriving DecidableEq, Repr

/-- Output paths written for one walk entry (main.rs lines 333-413): a
directory entry at tree-relative path P gets the directory tree/P/ and the
index page tree/P/index.html inside it; a blob entry at P gets the page
tree/P.html, preceded by the raw sibling tree/P when the bytes are not
UTF-8. -/
def walkStepWrites (dest : SPath) (e : WalkEntry) : List SPath :=
  match e.kind with
  | .tree => [treeDirIndexPath dest (e.parent ++ [e.name])]
  | .blob content =>
    if isValidUtf8 content then [treeFilePath dest e.parent e.name]
    else [rawSiblingPath dest e.parent e.name, treeFilePath dest e.parent e.name]

/-- Every output path one run of main writes, in order (main.rs lines
213-414): the stylesheet, the log page, one page per commit, the root tree
index, then the walk's writes entry by entry. -/
def runWrites (dest : SPath) (commitIds : List String) (entries : List WalkEntry) :
    List SPath :=
  [cssPath dest, logPath dest] ++ commitIds.map (commitPath dest)
    ++ [treeIndexPath dest] ++ (entries.map (walkStepWrites dest)).flatten

/-- C2's counterexample: a tree holding a single text file named index at
the root produces the output path tree/index.html twice in one run, once
for the root tree index page and once for the file's page, and that
duplicated path is not the shared stylesheet, so not every output path is
produced at most once per run. -/
theorem c2_counterexample :
    List.count (["out", "tree", "index.html"] : SPath)
      (runWrites ["out"] [] [⟨[], "index", .blob [104]⟩]) = 2
    ∧ ¬ (runWrites ["out"] [] [⟨[], "index", .blob [104]⟩]).Nodup
    ∧ (["out", "tree", "index.html"] : SPath) ≠ cssPath ["out"] := by
  exact ⟨by rfl, by decide, by decide⟩

/-- C2 amended: a directory entry at tree-relative path P is written as the
directory tree/P/ containing an index page and a file entry at P as the
file tree/P.html, so a file and a directory sharing a name at the same
level write to disjoint output paths and neither step overwrites the
other; but the run-wide at-most-once property fails, a file entry named
index colliding with its directory's index page. -/
theorem c2_entry_paths (dest parent : SPath) (name : String) (content : List Nat) :
    walkStepWrites dest ⟨parent, name, .tree⟩
      = [dest ++ ["tree"] ++ parent ++ [name, "index.html"]]
    ∧ treeFilePath dest parent name ∈ walkStepWrites dest ⟨parent, name, .blob content⟩
    ∧ treeFilePath dest parent name = dest ++ ["tree"] ++ parent ++ [name ++ ".html"]
    ∧ (∀ p ∈ walkStepWrites dest ⟨parent, name, .tree⟩,
        ∀ q ∈ walkStepWrites dest ⟨parent, name, .blob content⟩, p ≠ q) := by
  have htree : walkStepWrites dest ⟨parent, name, .tree⟩
      = [dest ++ ["tree"] ++ parent ++ [name, "index.html"]] := by
    simp [walkStepWrites, treeDirIndexPath]
  have hlen : ∀ q ∈ walkStepWrites dest ⟨parent, name, .blob content⟩,
      q.length = dest.length + parent.length + 2 := by
    intro q hq
    simp only [walkStepWrites] at hq
    by_cases hv : isValidUtf8 content
    · rw [if_pos hv] at hq
      rw [List.mem_singleton.mp hq]
      simp [treeFilePath]
      omega
    · rw [if_neg hv] at hq
      rcases List.mem_cons.mp hq with h1 | h2
      · rw [h1]; simp [rawSiblingPath]; omega
      · rw [List.mem_singleton.mp h2]; simp [treeFilePath]; omega
  refine ⟨htree, ?_, rfl, ?_⟩
  · simp only [walkStepWrites]
    by_cases hv : isValidUtf8 content
    · rw [if_pos hv]; exact List.mem_singleton.mpr rfl
    · rw [if_neg hv]; exact List.mem_cons.mpr (Or.inr (List.mem_singleton.mpr rfl))
  · intro p hp q hq
    rw [htree] at hp
    rw [List.mem_singleton.mp hp]
    intro hpq
    have hq2 := hlen q hq
    rw [← hpq] at hq2
    simp at hq2
    omega

/-- Concrete instantiation of c2_entry_paths: a file foo and a directory
foo at the same root level map to the two distinct paths tree/foo/index.html
and tree/foo.html. -/
theorem c2_entry_paths_witness :
    walkStepWrites ["out"] ⟨[], "foo", .tree⟩ = [["out", "tree", "foo", "index.html"]]
    ∧ treeFilePath ["out"] [] "foo" ∈ walkStepWrites ["out"] ⟨[], "foo", .blob [104]⟩
    ∧ (∀ p ∈ walkStepWrites ["out"] ⟨[], "foo", .tree⟩,
        ∀ q ∈ walkStepWrites ["out"] ⟨[], "foo", .blob [104]⟩, p ≠ q) := by
  have h := c2_entry_paths ["out"] [] "foo" [104]
  exact ⟨h.1, h.2.1, h.2.2.2⟩

end Rustagit
